import Mathlib

/-!
Shallow embedding of the node core of `npc-engine`
(`src/npc-engine-common/src/node.rs`), together with proofs about node
construction, the per-agent current-value cache, equality and hashing.

Modelling choices:
* `AgentId` is an opaque totally-ordered copyable identifier; we model it
  as `Nat`.
* `AgentValue` is an opaque copyable ordered scalar; the core never
  computes with it, so we model it as `Int`.
* `BTreeMap<AgentId, V>` is modelled as an association list
  `List (AgentId × V)`; a `BTreeMap` always has unique keys, which we
  carry as a `NodupKeys` hypothesis where a proof needs it.
* `BTreeSet<AgentId>` (the result of `get_visible_agents`) is modelled as
  a `List AgentId` (the set in iteration order).
* The `Domain` trait (its definition lives outside the shown sources; its
  interface is fully determined by the uses in `node.rs`) is modelled as a
  bundled structure of the associated types and capability functions.
* `Box<dyn Task<D>>` is modelled by an opaque task type bundled in the
  domain, with its `is_valid` method a function of the domain.
* `debug_assert!` is active only in builds with debug assertions enabled;
  `NodeInner.new` therefore takes a `debug_assertions : Bool` flag and
  returns `Option` — `none` models the assertion panic.
* `current_value` panics (`.unwrap()`) when the agent is not cached; we
  model the panic as `none` of an `Option` result.
-/

namespace NpcEngine

/-- Opaque, totally ordered, copyable agent identifier (`AgentId`). -/
abbrev AgentId : Type := Nat

/-- Opaque, copyable, ordered scalar utility value (`AgentValue`). -/
abbrev AgentValue : Type := Int

/-- Non-owning compound view pairing a base state with a diff
(`StateDiffRef<'a, D>`). -/
structure StateDiffRef (State Diff : Type) where
  initial_state : State
  diff : Diff
deriving DecidableEq

/-- `StateDiffRef::new` — pair a base state and a diff into a view. -/
def StateDiffRef.new {State Diff : Type} (initial_state : State) (diff : Diff) :
    StateDiffRef State Diff :=
  ⟨initial_state, diff⟩

/-- The `Domain` capability contract: associated `State` and `Diff` types,
the visible-agent query and the current-value query, plus the task type
and its validity check (the `Task` trait method used by `node.rs`). -/
structure Domain where
  State : Type
  Diff : Type
  Task : Type
  get_visible_agents : StateDiffRef State Diff → AgentId → List AgentId
  get_current_value : StateDiffRef State Diff → AgentId → AgentValue
  task_is_valid : Task → StateDiffRef State Diff → AgentId → Bool

/-- `BTreeMap::get` on the association-list model: return the value of
the first entry with the given key. -/
def btreeGet {V : Type} (m : List (AgentId × V)) (k : AgentId) : Option V :=
  match m with
  | [] => none
  | (q, v) :: rest => if q = k then some v else btreeGet rest k

/-- `BTreeMap::remove` on the association-list model: drop the first
entry with the given key. -/
def btreeRemove {V : Type} (m : List (AgentId × V)) (k : AgentId) :
    List (AgentId × V) :=
  match m with
  | [] => []
  | (q, v) :: rest => if q = k then rest else (q, v) :: btreeRemove rest k

/-- The keys of an association-list map, in order. -/
def btreeKeys {V : Type} (m : List (AgentId × V)) : List AgentId :=
  m.map Prod.fst

/-- `BTreeMap::values` — the values of the map, in key order. -/
def btreeValues {V : Type} (m : List (AgentId × V)) : List V :=
  m.map Prod.snd

/-- A `BTreeMap` has unique keys; inputs taken from real `BTreeMap`s
satisfy this predicate. -/
def NodupKeys {V : Type} (m : List (AgentId × V)) : Prop :=
  (btreeKeys m).Nodup

/-- `NodeInner<D>` — one node of the search tree: accumulated diff,
active agent, per-agent candidate tasks, and the per-agent cached
current values. -/
structure NodeInner (D : Domain) where
  diff : D.Diff
  active_agent : AgentId
  tasks : List (AgentId × D.Task)
  current_values : List (AgentId × AgentValue)

/-- `NodeInner::new` — construct a node from a base state, an accumulated
diff, the active agent and a proposed task map.  Mirrors the source:
(1) if the proposed map has an entry for the active agent whose
`is_valid` check fails against the state-diff view, remove it;
(2) query the visible agents and `debug_assert!` that the active agent is
among them (the assertion is compiled in only when `debug_assertions`
holds; its failure is modelled as `none`);
(3) memoize each visible agent's current value. -/
def NodeInner.new (D : Domain) (debug_assertions : Bool)
    (initial_state : D.State) (diff : D.Diff) (active_agent : AgentId)
    (tasks : List (AgentId × D.Task)) : Option (NodeInner D) :=
  -- Check validity of task for agent
  let tasks :=
    match btreeGet tasks active_agent with
    | some task =>
        if ! D.task_is_valid task (StateDiffRef.new initial_state diff) active_agent then
          btreeRemove tasks active_agent
        else tasks
    | none => tasks
  -- Get observable agents
  let agents := D.get_visible_agents (StateDiffRef.new initial_state diff) active_agent
  if debug_assertions && ! agents.contains active_agent then
    none
  else
    -- Set child current values
    let current_values := agents.map fun agent =>
      (agent, D.get_current_value (StateDiffRef.new initial_state diff) agent)
    some { active_agent := active_agent, diff := diff, tasks := tasks,
           current_values := current_values }

/-- `NodeInner::agent` — the agent who owns the node. -/
def NodeInner.agent {D : Domain} (self : NodeInner D) : AgentId :=
  self.active_agent

/-- `NodeInner::state_diff_ref` — build a state-diff view from a
caller-supplied base state and this node's diff. -/
def NodeInner.state_diff_ref {D : Domain} (self : NodeInner D)
    (initial_state : D.State) : StateDiffRef D.State D.Diff :=
  StateDiffRef.new initial_state self.diff

/-- `NodeInner::current_value` — the memoized value for an agent; the
source `unwrap`s, panicking when absent, which we model as `none`. -/
def NodeInner.current_value {D : Domain} (self : NodeInner D)
    (agent : AgentId) : Option AgentValue :=
  btreeGet self.current_values agent

/-- `NodeInner::current_value_or_compute` — the memoized value when
present, otherwise recomputed live from the domain capability under the
view formed from the supplied base state and this node's diff. -/
def NodeInner.current_value_or_compute {D : Domain} (self : NodeInner D)
    (agent : AgentId) (initial_state : D.State) : AgentValue :=
  match btreeGet self.current_values agent with
  | some v => v
  | none =>
      D.get_current_value (StateDiffRef.new initial_state self.diff) agent

/-- `NodeInner::size` — approximate byte footprint: structural size of
the record, per-entry cost of the value cache, and a caller-supplied
sizing function folded over the tasks.  The two `mem::size_of` constants
are platform-determined, so they are parameters here. -/
def NodeInner.size {D : Domain} (self : NodeInner D)
    (task_size : D.Task → Nat) (size_of_node size_of_value_entry : Nat) : Nat :=
  let size := 0
  let size := size + size_of_node
  let size := size + self.current_values.length * size_of_value_entry
  (btreeValues self.tasks).foldl (fun size task => size + task_size task) size

/-- `impl PartialEq for NodeInner` — equality compares `active_agent`,
`diff` and `tasks`, and nothing else. -/
def NodeInner.beq {D : Domain} [DecidableEq D.Diff] [DecidableEq D.Task]
    (self other : NodeInner D) : Bool :=
  decide (self.active_agent = other.active_agent)
    && decide (self.diff = other.diff)
    && decide (self.tasks = other.tasks)

/-- `impl Hash for NodeInner` — the data fed to the hasher, in order:
`active_agent`, then `diff`, then `tasks`.  The hash value of a node is a
function of exactly this triple. -/
def NodeInner.hashFields {D : Domain} (self : NodeInner D) :
    AgentId × D.Diff × List (AgentId × D.Task) :=
  (self.active_agent, self.diff, self.tasks)

/-- The read-only query surface of a node, one constructor per method of
`NodeInner` that takes `&self`. -/
inductive Query (D : Domain) where
  | agentQ : Query D
  | diffQ : Query D
  | stateDiffRefQ (initial_state : D.State) : Query D
  | currentValueQ (agent : AgentId) : Query D
  | currentValueOrComputeQ (agent : AgentId) (initial_state : D.State) : Query D
  | currentValuesQ : Query D
  | sizeQ (task_size : D.Task → Nat) (size_of_node size_of_value_entry : Nat) : Query D

/-- The possible results of the queries of `Query`. -/
inductive Answer (D : Domain) where
  | agentA (a : AgentId) : Answer D
  | diffA (d : D.Diff) : Answer D
  | viewA (v : StateDiffRef D.State D.Diff) : Answer D
  | valueOptA (v : Option AgentValue) : Answer D
  | valueA (v : AgentValue) : Answer D
  | valuesA (m : List (AgentId × AgentValue)) : Answer D
  | sizeA (n : Nat) : Answer D

/-- Run one query against a node.  Each method of the source takes the
node by shared borrow (`&self`) and the node type has no interior
mutability, so each branch returns the receiver unchanged alongside the
method's result; this function makes that state-passing explicit. -/
def NodeInner.applyQuery {D : Domain} (self : NodeInner D) :
    Query D → Answer D × NodeInner D
  | .agentQ => (.agentA self.agent, self)
  | .diffQ => (.diffA self.diff, self)
  | .stateDiffRefQ s => (.viewA (self.state_diff_ref s), self)
  | .currentValueQ a => (.valueOptA (self.current_value a), self)
  | .currentValueOrComputeQ a s => (.valueA (self.current_value_or_compute a s), self)
  | .currentValuesQ => (.valuesA self.current_values, self)
  | .sizeQ f c1 c2 => (.sizeA (self.size f c1 c2), self)

/-- Run a sequence of queries against a node, threading the node through
so that any mutation by a query would be observable by later queries. -/
def NodeInner.runQueries {D : Domain} (self : NodeInner D) :
    List (Query D) → List (Answer D) × NodeInner D
  | [] => ([], self)
  | q :: qs =>
      let r := self.applyQuery q
      let rest := r.2.runQueries qs
      (r.1 :: rest.1, rest.2)

/-- A small concrete domain used to evaluate the development on concrete
inputs.  The state and the diff are integers; the current value of an
agent is `initial_state + diff + agent`, so it depends on the base
state; the agents visible to `a` are `[a, a + 1]`, except that a
negative diff empties the visible set (which lets us exercise the
visible-set contract violation); a task (a `Nat`) is valid while it is
at most the diff. -/
abbrev DemoDomain : Domain where
  State := Int
  Diff := Int
  Task := Nat
  get_visible_agents := fun view agent =>
    if view.diff < 0 then [] else [agent, agent + 1]
  get_current_value := fun view agent =>
    view.initial_state + view.diff + (agent : Int)
  task_is_valid := fun task view _agent => decide ((task : Int) ≤ view.diff)

/-! Helper lemmas about the association-list model of `BTreeMap`. -/

theorem btreeKeys_map_pair {V : Type} (f : AgentId → V) (l : List AgentId) :
    btreeKeys (l.map fun a => (a, f a)) = l := by
  induction l with
  | nil => rfl
  | cons a rest ih => simpa [btreeKeys] using ih

theorem btreeGet_map_pair {V : Type} (f : AgentId → V) (l : List AgentId)
    (k : AgentId) :
    btreeGet (l.map fun a => (a, f a)) k = if k ∈ l then some (f k) else none := by
  induction l with
  | nil => simp [btreeGet]
  | cons a rest ih =>
      by_cases h : a = k
      · subst h
        simp [btreeGet]
      · simp [btreeGet, h, ih, Ne.symm h]

theorem btreeGet_eq_none_of_not_mem_keys {V : Type} (m : List (AgentId × V))
    (k : AgentId) (h : k ∉ btreeKeys m) : btreeGet m k = none := by
  induction m with
  | nil => rfl
  | cons p rest ih =>
      simp only [btreeKeys, List.map_cons, List.mem_cons] at h
      push_neg at h
      simp [btreeGet, Ne.symm h.1, ih (by simpa [btreeKeys] using h.2)]

theorem btreeGet_isSome_iff_mem_keys {V : Type} (m : List (AgentId × V))
    (k : AgentId) : (btreeGet m k).isSome = true ↔ k ∈ btreeKeys m := by
  induction m with
  | nil => simp [btreeGet, btreeKeys]
  | cons p rest ih =>
      obtain ⟨pk, pv⟩ := p
      simp only [btreeKeys, List.map_cons, List.mem_cons] at ih ⊢
      by_cases hp : pk = k
      · subst hp
        simp [btreeGet]
      · simp [btreeGet, hp, Ne.symm hp, ih]

theorem btreeGet_cons {V : Type} (pk : AgentId) (pv : V)
    (rest : List (AgentId × V)) (k : AgentId) :
    btreeGet ((pk, pv) :: rest) k
      = if pk = k then some pv else btreeGet rest k := rfl

theorem btreeRemove_cons {V : Type} (pk : AgentId) (pv : V)
    (rest : List (AgentId × V)) (k : AgentId) :
    btreeRemove ((pk, pv) :: rest) k
      = if pk = k then rest else (pk, pv) :: btreeRemove rest k := rfl

theorem btreeGet_remove_ne {V : Type} (m : List (AgentId × V))
    (k q : AgentId) (h : q ≠ k) :
    btreeGet (btreeRemove m k) q = btreeGet m q := by
  induction m with
  | nil => rfl
  | cons p rest ih =>
      obtain ⟨pk, pv⟩ := p
      rw [btreeRemove_cons, btreeGet_cons]
      by_cases hp : pk = k
      · rw [if_pos hp, if_neg (fun hq => h (show q = k by rw [← hq]; exact hp))]
      · rw [if_neg hp, btreeGet_cons]
        by_cases hq : pk = q
        · rw [if_pos hq, if_pos hq]
        · rw [if_neg hq, if_neg hq, ih]

theorem btreeGet_remove_self {V : Type} (m : List (AgentId × V))
    (k : AgentId) (h : NodupKeys m) : btreeGet (btreeRemove m k) k = none := by
  induction m with
  | nil => rfl
  | cons p rest ih =>
      simp only [NodupKeys, btreeKeys, List.map_cons, List.nodup_cons] at h
      by_cases hp : p.1 = k
      · simp only [btreeRemove, hp, if_pos rfl]
        exact btreeGet_eq_none_of_not_mem_keys rest k (hp ▸ h.1)
      · simp [btreeRemove, hp, btreeGet, ih h.2]

theorem foldl_add_eq_add_sum {α : Type} (f : α → Nat) (l : List α) (init : Nat) :
    l.foldl (fun acc x => acc + f x) init = init + (l.map f).sum := by
  induction l generalizing init with
  | nil => simp
  | cons a rest ih => simp [ih, Nat.add_assoc]

/-- `NodeInner.new` with its `let` bindings inlined: an `if` on the
debug-assertion check around the record the source builds. -/
theorem new_eq (D : Domain) (dbg : Bool) (s : D.State) (d : D.Diff)
    (a : AgentId) (t : List (AgentId × D.Task)) :
    NodeInner.new D dbg s d a t =
      if dbg && ! (D.get_visible_agents (StateDiffRef.new s d) a).contains a then
        none
      else
        some { active_agent := a, diff := d,
               tasks :=
                 match btreeGet t a with
                 | some task =>
                     if ! D.task_is_valid task (StateDiffRef.new s d) a then
                       btreeRemove t a
                     else t
                 | none => t,
               current_values :=
                 (D.get_visible_agents (StateDiffRef.new s d) a).map fun ag =>
                   (ag, D.get_current_value (StateDiffRef.new s d) ag) } := rfl

/-- Elimination form of `NodeInner.new`: when construction returns a
node, that node is exactly the record the source builds. -/
theorem new_some {D : Domain} {dbg : Bool} {s : D.State} {d : D.Diff}
    {a : AgentId} {t : List (AgentId × D.Task)} {n : NodeInner D}
    (h : NodeInner.new D dbg s d a t = some n) :
    n = { active_agent := a, diff := d,
          tasks :=
            match btreeGet t a with
            | some task =>
                if ! D.task_is_valid task (StateDiffRef.new s d) a then
                  btreeRemove t a
                else t
            | none => t,
          current_values :=
            (D.get_visible_agents (StateDiffRef.new s d) a).map fun ag =>
              (ag, D.get_current_value (StateDiffRef.new s d) ag) } := by
  rw [new_eq] at h
  cases hb : (dbg && ! (D.get_visible_agents (StateDiffRef.new s d) a).contains a) with
  | true =>
      rw [hb] at h
      rw [if_pos rfl] at h
      exact absurd h (by simp)
  | false =>
      rw [hb] at h
      rw [if_neg (by simp)] at h
      exact (Option.some.inj h).symm

/-- When construction returns `none`, debug assertions were on and the
visible set of the active agent did not contain it. -/
theorem new_none {D : Domain} {dbg : Bool} {s : D.State} {d : D.Diff}
    {a : AgentId} {t : List (AgentId × D.Task)}
    (h : NodeInner.new D dbg s d a t = none) :
    dbg = true ∧ (D.get_visible_agents (StateDiffRef.new s d) a).contains a = false := by
  rw [new_eq] at h
  cases hb : (dbg && ! (D.get_visible_agents (StateDiffRef.new s d) a).contains a) with
  | true =>
      rw [Bool.and_eq_true, Bool.not_eq_true'] at hb
      exact hb
  | false =>
      rw [hb] at h
      rw [if_neg (by simp)] at h
      exact absurd h (by simp)

theorem applyQuery_snd {D : Domain} (n : NodeInner D) (q : Query D) :
    (n.applyQuery q).2 = n := by
  cases q <;> rfl

/-- C1: node equality compares exactly the `active_agent`, `diff` and
`tasks` fields, component-wise; the hasher is fed exactly those three
fields, so equal nodes hash identically; and the `current_values` cache
participates in neither equality nor hashing — replacing the caches of
either node changes neither the comparison nor the hash input. -/
theorem node_eq_iff_fields_and_hash_consistent {D : Domain}
    [DecidableEq D.Diff] [DecidableEq D.Task] (n1 n2 : NodeInner D) :
    (NodeInner.beq n1 n2 = true ↔
      n1.active_agent = n2.active_agent ∧ n1.diff = n2.diff ∧ n1.tasks = n2.tasks)
    ∧ (NodeInner.beq n1 n2 = true → n1.hashFields = n2.hashFields)
    ∧ (∀ cv1 cv2 : List (AgentId × AgentValue),
        NodeInner.beq { n1 with current_values := cv1 }
            { n2 with current_values := cv2 }
          = NodeInner.beq n1 n2
        ∧ NodeInner.hashFields { n1 with current_values := cv1 }
          = NodeInner.hashFields n1) := by
  refine ⟨?_, ?_, fun cv1 cv2 => ⟨rfl, rfl⟩⟩
  · simp [NodeInner.beq, and_assoc]
  · intro h
    simp only [NodeInner.beq, Bool.and_eq_true, decide_eq_true_eq] at h
    simp [NodeInner.hashFields, h.1.1, h.1.2, h.2]

/-- C5: `current_value_or_compute` returns the memoized value whenever
the agent is cached — for every supplied base state, so the result is
then independent of it and of the domain capability; for an uncached
agent it returns exactly the live domain query under the view formed
from the supplied base state and the node's diff. -/
theorem current_value_or_compute_cached_or_live {D : Domain}
    (n : NodeInner D) (agent : AgentId) :
    (∀ v : AgentValue, btreeGet n.current_values agent = some v →
      ∀ s : D.State, n.current_value_or_compute agent s = v)
    ∧ (agent ∈ btreeKeys n.current_values →
      ∀ s1 s2 : D.State,
        n.current_value_or_compute agent s1 = n.current_value_or_compute agent s2)
    ∧ (btreeGet n.current_values agent = none →
      ∀ s : D.State,
        n.current_value_or_compute agent s
          = D.get_current_value (StateDiffRef.new s n.diff) agent) := by
  refine ⟨?_, ?_, ?_⟩
  · intro v hv s
    unfold NodeInner.current_value_or_compute
    rw [hv]
  · intro hmem s1 s2
    have hs : (btreeGet n.current_values agent).isSome = true :=
      (btreeGet_isSome_iff_mem_keys _ _).2 hmem
    obtain ⟨v, hv⟩ := Option.isSome_iff_exists.1 hs
    unfold NodeInner.current_value_or_compute
    rw [hv]
  · intro hnone s
    unfold NodeInner.current_value_or_compute
    rw [hnone]

/-- C8: a node is immutable after creation — running any sequence of
query operations (agent, diff, state_diff_ref, current_value,
current_value_or_compute, current_values, size) threads the node through
unchanged, and each query's answer is what it would be on the freshly
constructed node, independent of the queries run before it. -/
theorem queries_leave_node_unchanged {D : Domain} (n : NodeInner D)
    (qs : List (Query D)) :
    (NodeInner.runQueries n qs).2 = n
    ∧ (NodeInner.runQueries n qs).1
        = qs.map fun q => (NodeInner.applyQuery n q).1 := by
  induction qs with
  | nil => exact ⟨rfl, rfl⟩
  | cons q qs ih =>
      refine ⟨?_, ?_⟩
      · show ((n.applyQuery q).2.runQueries qs).2 = n
        rw [applyQuery_snd]
        exact ih.1
      · show (n.applyQuery q).1 :: ((n.applyQuery q).2.runQueries qs).1 = _
        rw [applyQuery_snd, List.map_cons]
        exact congrArg _ ih.2

/-- C9: the size estimate is the structural size of the node record,
plus the number of cache entries times the per-entry size, plus the sum
of the caller-supplied sizing function over the node's tasks. -/
theorem node_size_formula {D : Domain} (n : NodeInner D)
    (task_size : D.Task → Nat) (size_of_node size_of_value_entry : Nat) :
    n.size task_size size_of_node size_of_value_entry
      = size_of_node + n.current_values.length * size_of_value_entry
        + ((btreeValues n.tasks).map task_size).sum := by
  unfold NodeInner.size
  rw [foldl_add_eq_add_sum]
  simp [Nat.zero_add]

/-- C2: a constructed node's `current_values` has as keys exactly the
visible-agent set of the active agent under the construction's
state-diff view — no more, no fewer — and maps each visible agent to the
domain's current value for it under that same view. -/
theorem construction_current_values_complete {D : Domain} (dbg : Bool)
    (s : D.State) (d : D.Diff) (a : AgentId) (t : List (AgentId × D.Task))
    (n : NodeInner D) (h : NodeInner.new D dbg s d a t = some n) :
    btreeKeys n.current_values = D.get_visible_agents (StateDiffRef.new s d) a
    ∧ ∀ ag : AgentId,
        btreeGet n.current_values ag
          = if ag ∈ D.get_visible_agents (StateDiffRef.new s d) a
            then some (D.get_current_value (StateDiffRef.new s d) ag)
            else none := by
  obtain rfl := new_some h
  exact ⟨btreeKeys_map_pair _ _, fun ag => btreeGet_map_pair _ _ ag⟩

/-- Witness for C2: a concrete construction in the demo domain, whose
hypothesis is discharged by evaluation. -/
theorem construction_current_values_complete_witness :
    btreeKeys (NodeInner.current_values (D := DemoDomain)
        ⟨0, 3, [], [(3, 8), (4, 9)]⟩) = [3, 4]
    ∧ btreeGet (NodeInner.current_values (D := DemoDomain)
        ⟨0, 3, [], [(3, 8), (4, 9)]⟩) 4 = some 9 :=
  ⟨(construction_current_values_complete (D := DemoDomain) false 5 0 3 []
      ⟨0, 3, [], [(3, 8), (4, 9)]⟩ rfl).1,
   ((construction_current_values_complete (D := DemoDomain) false 5 0 3 []
      ⟨0, 3, [], [(3, 8), (4, 9)]⟩ rfl).2 4).trans (by decide)⟩

/-- C3: if the proposed task map has an entry for the active agent whose
validity check fails under the construction's state-diff view, the
constructed node's task map omits that entry; a valid active-agent entry
and every entry of any other agent are preserved unchanged. -/
theorem construction_filters_invalid_active_task {D : Domain} (dbg : Bool)
    (s : D.State) (d : D.Diff) (a : AgentId) (t : List (AgentId × D.Task))
    (n : NodeInner D) (hnd : NodupKeys t)
    (h : NodeInner.new D dbg s d a t = some n) :
    (∀ task : D.Task, btreeGet t a = some task →
        D.task_is_valid task (StateDiffRef.new s d) a = false →
        btreeGet n.tasks a = none)
    ∧ (∀ task : D.Task, btreeGet t a = some task →
        D.task_is_valid task (StateDiffRef.new s d) a = true → n.tasks = t)
    ∧ (btreeGet t a = none → n.tasks = t)
    ∧ (∀ k : AgentId, k ≠ a → btreeGet n.tasks k = btreeGet t k) := by
  obtain rfl := new_some h
  refine ⟨?_, ?_, ?_, ?_⟩
  · intro task htask hinv
    show btreeGet
      (match btreeGet t a with
       | some task =>
           if ! D.task_is_valid task (StateDiffRef.new s d) a then
             btreeRemove t a
           else t
       | none => t) a = none
    rw [htask]
    simp only [hinv, Bool.not_false, if_pos]
    exact btreeGet_remove_self t a hnd
  · intro task htask hval
    show (match btreeGet t a with
       | some task =>
           if ! D.task_is_valid task (StateDiffRef.new s d) a then
             btreeRemove t a
           else t
       | none => t) = t
    rw [htask]
    simp [hval]
  · intro hnone
    show (match btreeGet t a with
       | some task =>
           if ! D.task_is_valid task (StateDiffRef.new s d) a then
             btreeRemove t a
           else t
       | none => t) = t
    rw [hnone]
  · intro k hk
    show btreeGet
      (match btreeGet t a with
       | some task =>
           if ! D.task_is_valid task (StateDiffRef.new s d) a then
             btreeRemove t a
           else t
       | none => t) k = btreeGet t k
    cases hta : btreeGet t a with
    | none => rfl
    | some task =>
        by_cases hv : D.task_is_valid task (StateDiffRef.new s d) a
        · simp [hv]
        · simp only [Bool.not_eq_true] at hv
          simp only [hv, Bool.not_false, if_pos]
          exact btreeGet_remove_ne t a k hk

/-- Witness for C3: in the demo domain, a task map carrying an invalid
task for the active agent 3 and a task for agent 2; construction drops
agent 3's entry and keeps agent 2's. -/
theorem construction_filters_invalid_active_task_witness :
    NodupKeys ([(2, 0), (3, 5)] : List (AgentId × DemoDomain.Task))
    ∧ btreeGet (NodeInner.tasks (D := DemoDomain)
        ⟨0, 3, [(2, 0)], [(3, 8), (4, 9)]⟩) 3 = none
    ∧ btreeGet (NodeInner.tasks (D := DemoDomain)
        ⟨0, 3, [(2, 0)], [(3, 8), (4, 9)]⟩) 2 = btreeGet [(2, 0), (3, 5)] 2 :=
  ⟨by unfold NodupKeys; decide,
   (construction_filters_invalid_active_task (D := DemoDomain) false 5 0 3 [(2, 0), (3, 5)]
      ⟨0, 3, [(2, 0)], [(3, 8), (4, 9)]⟩ (by unfold NodupKeys; decide) rfl).1 5 rfl (by decide),
   (construction_filters_invalid_active_task (D := DemoDomain) false 5 0 3 [(2, 0), (3, 5)]
      ⟨0, 3, [(2, 0)], [(3, 8), (4, 9)]⟩ (by unfold NodupKeys; decide) rfl).2.2.2 2 (by decide)⟩

/-- C4: under the domain contract that the active agent is in its own
visible set, the constructed node's active agent is a key of its
`current_values` (and stays one: no operation mutates a node). -/
theorem active_agent_in_current_values {D : Domain} (dbg : Bool)
    (s : D.State) (d : D.Diff) (a : AgentId) (t : List (AgentId × D.Task))
    (n : NodeInner D)
    (hvis : a ∈ D.get_visible_agents (StateDiffRef.new s d) a)
    (h : NodeInner.new D dbg s d a t = some n) :
    n.agent ∈ btreeKeys n.current_values
    ∧ (n.current_value n.agent).isSome = true := by
  obtain rfl := new_some h
  have hmem : NodeInner.agent (D := D)
      { active_agent := a, diff := d,
        tasks :=
          match btreeGet t a with
          | some task =>
              if ! D.task_is_valid task (StateDiffRef.new s d) a then
                btreeRemove t a
              else t
          | none => t,
        current_values :=
          (D.get_visible_agents (StateDiffRef.new s d) a).map fun ag =>
            (ag, D.get_current_value (StateDiffRef.new s d) ag) }
      ∈ btreeKeys ((D.get_visible_agents (StateDiffRef.new s d) a).map fun ag =>
          (ag, D.get_current_value (StateDiffRef.new s d) ag)) := by
    rw [btreeKeys_map_pair]
    exact hvis
  exact ⟨hmem, (btreeGet_isSome_iff_mem_keys _ _).2 hmem⟩

/-- Witness for C4 at a concrete construction in the demo domain. -/
theorem active_agent_in_current_values_witness :
    (3 : AgentId) ∈ DemoDomain.get_visible_agents (StateDiffRef.new 5 0) 3
    ∧ NodeInner.agent (D := DemoDomain) ⟨0, 3, [], [(3, 8), (4, 9)]⟩
        ∈ btreeKeys (NodeInner.current_values (D := DemoDomain)
            ⟨0, 3, [], [(3, 8), (4, 9)]⟩) :=
  ⟨by decide,
   (active_agent_in_current_values (D := DemoDomain) false 5 0 3 []
      ⟨0, 3, [], [(3, 8), (4, 9)]⟩ (by decide) rfl).1⟩

/-- C6: `current_value` returns the memoized value for every agent that
was visible at construction, and for an agent outside the visible set —
hence absent from `current_values` — it returns `none`, our model of the
source's fatal `unwrap` panic. -/
theorem current_value_memoized_or_panics {D : Domain} (dbg : Bool)
    (s : D.State) (d : D.Diff) (a : AgentId) (t : List (AgentId × D.Task))
    (n : NodeInner D) (h : NodeInner.new D dbg s d a t = some n)
    (agent : AgentId) :
    (agent ∈ D.get_visible_agents (StateDiffRef.new s d) a →
        n.current_value agent
          = some (D.get_current_value (StateDiffRef.new s d) agent))
    ∧ (agent ∉ D.get_visible_agents (StateDiffRef.new s d) a →
        n.current_value agent = none) := by
  obtain rfl := new_some h
  constructor
  · intro hmem
    unfold NodeInner.current_value
    rw [show NodeInner.current_values (D := D) _
          = (D.get_visible_agents (StateDiffRef.new s d) a).map (fun ag =>
              (ag, D.get_current_value (StateDiffRef.new s d) ag)) from rfl,
        btreeGet_map_pair, if_pos hmem]
  · intro hmem
    unfold NodeInner.current_value
    rw [show NodeInner.current_values (D := D) _
          = (D.get_visible_agents (StateDiffRef.new s d) a).map (fun ag =>
              (ag, D.get_current_value (StateDiffRef.new s d) ag)) from rfl,
        btreeGet_map_pair, if_neg hmem]

/-- Witness for C6: on a concrete demo-domain node, agent 4 is visible
and memoized while agent 7 is not visible, so its lookup is the modelled
panic. -/
theorem current_value_memoized_or_panics_witness :
    ((4 : AgentId) ∈ DemoDomain.get_visible_agents (StateDiffRef.new 5 0) 3
      → NodeInner.current_value (D := DemoDomain)
          ⟨0, 3, [], [(3, 8), (4, 9)]⟩ 4 = some 9)
    ∧ ((7 : AgentId) ∉ DemoDomain.get_visible_agents (StateDiffRef.new 5 0) 3
      → NodeInner.current_value (D := DemoDomain)
          ⟨0, 3, [], [(3, 8), (4, 9)]⟩ 7 = none) :=
  ⟨fun hm => ((current_value_memoized_or_panics (D := DemoDomain) false 5 0 3 []
      ⟨0, 3, [], [(3, 8), (4, 9)]⟩ rfl 4).1 hm).trans (by decide),
   (current_value_memoized_or_panics (D := DemoDomain) false 5 0 3 []
      ⟨0, 3, [], [(3, 8), (4, 9)]⟩ rfl 7).2⟩

/-- C7 counterexample: the visible-set consistency check is a
`debug_assert!`, compiled out when debug assertions are off (release
builds); there, a construction whose visible set excludes the active
agent still silently returns a node. -/
theorem new_without_debug_assertions_returns_node :
    ((DemoDomain.get_visible_agents (StateDiffRef.new 0 (-1)) 0).contains 0) = false
    ∧ (NodeInner.new DemoDomain false 0 (-1) 0 []).isSome = true :=
  ⟨rfl, rfl⟩

/-- C7 (amended): when debug assertions are enabled, a construction
whose visible set does not contain the active agent fails the fatal
assertion and produces no node; when they are disabled, the check is
compiled out and construction silently proceeds to return a node. -/
theorem new_debug_assert_check {D : Domain} (dbg : Bool) (s : D.State)
    (d : D.Diff) (a : AgentId) (t : List (AgentId × D.Task))
    (hvis : (D.get_visible_agents (StateDiffRef.new s d) a).contains a = false) :
    (dbg = true → NodeInner.new D dbg s d a t = none)
    ∧ (dbg = false → (NodeInner.new D dbg s d a t).isSome = true) := by
  constructor
  · intro hd
    subst hd
    rw [new_eq, hvis]
    simp
  · intro hd
    subst hd
    rw [new_eq]
    simp

/-- Witness for C7's amended theorem: the demo domain violates the
visible-set contract under a negative diff; with debug assertions on,
construction returns no node. -/
theorem new_debug_assert_check_witness :
    ((DemoDomain.get_visible_agents (StateDiffRef.new 0 (-1)) 0).contains 0) = false
    ∧ NodeInner.new DemoDomain true 0 (-1) 0 [] = none :=
  ⟨rfl, (new_debug_assert_check (D := DemoDomain) true 0 (-1) 0 [] (by decide)).1 rfl⟩

/-- C10: two constructions in the demo domain against different base
states but the same diff, active agent and task map yield nodes that are
equal and hash identically, yet whose `current_values` caches differ —
so `current_value` on equal nodes returns different results for the same
agent. -/
theorem equal_nodes_with_distinct_caches :
    ∃ n1 n2 : NodeInner DemoDomain,
      NodeInner.new DemoDomain false 5 0 3 [] = some n1
      ∧ NodeInner.new DemoDomain false 7 0 3 [] = some n2
      ∧ NodeInner.beq n1 n2 = true
      ∧ n1.hashFields = n2.hashFields
      ∧ n1.current_values ≠ n2.current_values
      ∧ n1.current_value 3 ≠ n2.current_value 3 := by
  refine ⟨⟨0, 3, [], [(3, 8), (4, 9)]⟩, ⟨0, 3, [], [(3, 10), (4, 11)]⟩,
    rfl, rfl, by decide, rfl, by decide, by decide⟩

end NpcEngine
